import Mathlib

/-!
Shallow embedding of the TIZO kiosk server core (`server.js`): the rate cache
`upsellOffersCache`, its loader `loadUpsellOffersCache`, and the tiered
currency-to-credit converter `calculateCustomTizo`.

Modelling conventions:
* JavaScript numbers appearing in this code path are integers; they are
  embedded as `Int` (input amounts may be negative, so `Nat` would be wrong).
* `Math.floor(remaining / 600)` is floor division by the positive constant
  600; on `Int`, `/` (Euclidean division) coincides with floor division for a
  positive divisor, so it is written `remaining / 600`.
* `remaining % 600` in JavaScript is the truncated remainder.  It is executed
  only under the guard `base600Count > 0`, where `remaining >= 600 > 0`, and
  for a non-negative dividend the truncated and Euclidean remainders
  coincide, so it is written `remaining % 600`.
* The global mutable variable `upsellOffersCache` (initially `null`) becomes
  an explicit `Option (List UpsellOffer)` argument, `none` standing for
  `null`; stateful functions pass the state explicitly.
* The inner `while` loop of the greedy pass is embedded with explicit fuel
  (`tierLoop`): the source loop diverges when an offer has
  `topup_rb <= 0`, so no terminating Lean function can model it without
  either a positivity hypothesis or fuel.  `calculateCustomTizo` runs the
  loop with fuel `amountRb.toNat + 1`, which is proved sufficient whenever
  every offer has a positive `topup_rb`.
* `Array.prototype.sort` with comparator `(a, b) => b.topup_rb - a.topup_rb`
  sorts descending by `topup_rb`; it is embedded as an insertion sort
  (`sortDescByTopup`).  No claim depends on the tie-break order.
-/

/-- One row of the `upsell_offers` table: `topup_rb` is the top-up amount in
Rb consumed per application, `tizo_value` the credit awarded. -/
structure UpsellOffer where
  topup_rb : Int
  tizo_value : Int
deriving DecidableEq

/-- Insert an offer into a list kept descending by `topup_rb`. -/
def insertDescByTopup (o : UpsellOffer) : List UpsellOffer → List UpsellOffer
  | [] => [o]
  | x :: xs =>
    if x.topup_rb < o.topup_rb then o :: x :: xs else x :: insertDescByTopup o xs

/-- Embedding of `.sort((a, b) => b.topup_rb - a.topup_rb)`: sort descending
by `topup_rb`. -/
def sortDescByTopup : List UpsellOffer → List UpsellOffer
  | [] => []
  | x :: xs => insertDescByTopup x (sortDescByTopup xs)

/-- Embedding of the inner `while` loop of `calculateCustomTizo`:

    while (remaining >= offer.topup_rb) {
        totalTizo += offer.tizo_value;
        remaining -= offer.topup_rb;
    }

State is `(remaining, totalTizo)`.  The loop is run with explicit fuel
because the source loop diverges when `topup_rb <= 0`; with positive
`topup_rb` the fuel used by `calculateCustomTizo` is proved sufficient. -/
def tierLoop (t v : Int) : Nat → Int × Int → Int × Int
  | 0, s => s
  | fuel + 1, (remaining, totalTizo) =>
    if t ≤ remaining then tierLoop t v fuel (remaining - t, totalTizo + v)
    else (remaining, totalTizo)

/-- Embedding of `for (const offer of validOffers) { while ... }`: run the
tier loop for each offer in order, threading `(remaining, totalTizo)`. -/
def runOffers (fuel : Nat) : List UpsellOffer → Int × Int → Int × Int
  | [], s => s
  | o :: os, s => runOffers fuel os (tierLoop o.topup_rb o.tizo_value fuel s)

/-- Fuel given to each inner `while` loop by the canonical embedding: one
iteration per unit of the input amount, plus one. -/
def step2Fuel (amountRb : Int) : Nat := amountRb.toNat + 1

/-- Embedding of `calculateCustomTizo(amountRb)` with explicit fuel for the
inner greedy loops.  Mirrors the source statement by statement:

    let totalTizo = 0;
    let remaining = amountRb;
    const base600Count = Math.floor(remaining / 600);
    if (base600Count > 0) { totalTizo += base600Count * 1200; remaining = remaining % 600; }
    if (remaining > 0 && upsellOffersCache && upsellOffersCache.length > 0) {
        const validOffers = upsellOffersCache.filter(o => o.topup_rb < 600)
                                             .sort((a, b) => b.topup_rb - a.topup_rb);
        for (const offer of validOffers) { while (remaining >= offer.topup_rb) { ... } }
    }
    if (remaining > 0) { totalTizo += remaining; }
    return totalTizo; -/
def calculateCustomTizoFuel (fuel : Nat) (upsellOffersCache : Option (List UpsellOffer))
    (amountRb : Int) : Int :=
  let remaining0 : Int := amountRb
  let base600Count : Int := remaining0 / 600
  let totalTizo1 : Int := if 0 < base600Count then base600Count * 1200 else 0
  let remaining1 : Int := if 0 < base600Count then remaining0 % 600 else remaining0
  let s2 : Int × Int :=
    match upsellOffersCache with
    | some offers =>
      if 0 < remaining1 ∧ 0 < offers.length then
        runOffers fuel (sortDescByTopup (offers.filter fun o => o.topup_rb < 600))
          (remaining1, totalTizo1)
      else (remaining1, totalTizo1)
    | none => (remaining1, totalTizo1)
  if 0 < s2.1 then s2.2 + s2.1 else s2.2

/-- The converter at the canonical fuel, sufficient whenever every cache
entry has positive `topup_rb` (proved below). -/
def calculateCustomTizo (upsellOffersCache : Option (List UpsellOffer))
    (amountRb : Int) : Int :=
  calculateCustomTizoFuel (step2Fuel amountRb) upsellOffersCache amountRb

/-- State-passing form of `calculateCustomTizo`: the source function reads
the module-level `upsellOffersCache` but contains no assignment to it, so
the post-call state equals the pre-call state. -/
def calculateCustomTizoSt (upsellOffersCache : Option (List UpsellOffer))
    (amountRb : Int) : Int × Option (List UpsellOffer) :=
  (calculateCustomTizo upsellOffersCache amountRb, upsellOffersCache)

/-- Insert an offer into a list kept ascending by `topup_rb`. -/
def insertAscByTopup (o : UpsellOffer) : List UpsellOffer → List UpsellOffer
  | [] => [o]
  | x :: xs =>
    if o.topup_rb ≤ x.topup_rb then o :: x :: xs else x :: insertAscByTopup o xs

/-- Result of the query `SELECT * FROM upsell_offers ORDER BY topup_rb`: all
rows of the table, ordered ascending by `topup_rb` (the ordering is performed
by the database engine; it is embedded as an insertion sort). -/
def queryUpsellOffers (table : List UpsellOffer) : List UpsellOffer :=
  table.foldr insertAscByTopup []

/-- Embedding of `loadUpsellOffersCache()`.  The query outcome is passed in
as an `Except`.  On success the cache is replaced in one assignment
(`upsellOffersCache = result.rows`); on failure the `catch` block only logs
(`console.error`) and the async function resolves normally, so the cache is
untouched and the second component — what the awaiting caller observes — is
`Except.ok ()` in both branches: no error is ever propagated. -/
def loadUpsellOffersCache (upsellOffersCache : Option (List UpsellOffer))
    (queryResult : Except String (List UpsellOffer)) :
    Option (List UpsellOffer) × Except String Unit :=
  match queryResult with
  | .ok rows => (some rows, .ok ())
  | .error _ => (upsellOffersCache, .ok ())

/-! ### Helper lemmas about the sorts -/

lemma mem_insertDescByTopup {x o : UpsellOffer} {l : List UpsellOffer} :
    x ∈ insertDescByTopup o l ↔ x = o ∨ x ∈ l := by
  induction l with
  | nil => simp [insertDescByTopup]
  | cons y ys ih =>
    simp only [insertDescByTopup]
    split_ifs with hc
    · simp
    · simp only [List.mem_cons, ih]
      tauto

lemma mem_sortDescByTopup {x : UpsellOffer} {l : List UpsellOffer} :
    x ∈ sortDescByTopup l ↔ x ∈ l := by
  induction l with
  | nil => simp [sortDescByTopup]
  | cons y ys ih =>
    simp only [sortDescByTopup, mem_insertDescByTopup, List.mem_cons, ih]

lemma mem_insertAscByTopup {x o : UpsellOffer} {l : List UpsellOffer} :
    x ∈ insertAscByTopup o l ↔ x = o ∨ x ∈ l := by
  induction l with
  | nil => simp [insertAscByTopup]
  | cons y ys ih =>
    simp only [insertAscByTopup]
    split_ifs with hc
    · simp
    · simp only [List.mem_cons, ih]
      tauto

lemma pairwise_insertAscByTopup {o : UpsellOffer} {l : List UpsellOffer}
    (h : List.Pairwise (fun a b : UpsellOffer => a.topup_rb ≤ b.topup_rb) l) :
    List.Pairwise (fun a b : UpsellOffer => a.topup_rb ≤ b.topup_rb)
      (insertAscByTopup o l) := by
  induction l with
  | nil => simp [insertAscByTopup]
  | cons y ys ih =>
    rw [List.pairwise_cons] at h
    obtain ⟨hy, hys⟩ := h
    simp only [insertAscByTopup]
    split_ifs with hc
    · refine List.Pairwise.cons ?_ (List.Pairwise.cons hy hys)
      intro b hb
      rcases List.mem_cons.mp hb with rfl | hb
      · exact hc
      · exact le_trans hc (hy b hb)
    · refine List.Pairwise.cons ?_ (ih hys)
      intro b hb
      rcases mem_insertAscByTopup.mp hb with rfl | hb
      · omega
      · exact hy b hb

lemma pairwise_queryUpsellOffers (table : List UpsellOffer) :
    List.Pairwise (fun a b : UpsellOffer => a.topup_rb ≤ b.topup_rb)
      (queryUpsellOffers table) := by
  induction table with
  | nil => simp [queryUpsellOffers]
  | cons x xs ih => exact pairwise_insertAscByTopup ih

/-! ### Helper lemmas about the greedy loop -/

/-- The inner while loop preserves non-negativity of `remaining` and, when
the tier awards at least what it consumes, never decreases
`totalTizo + remaining`. -/
lemma tierLoop_inv (t v : Int) (hv : t ≤ v) :
    ∀ (fuel : Nat) (r tot : Int), 0 ≤ r →
      0 ≤ (tierLoop t v fuel (r, tot)).1 ∧
      tot + r ≤ (tierLoop t v fuel (r, tot)).2 + (tierLoop t v fuel (r, tot)).1 := by
  intro fuel
  induction fuel with
  | zero => intro r tot hr; simp [tierLoop]; omega
  | succ n ih =>
    intro r tot hr
    simp only [tierLoop]
    split_ifs with hc
    · have h := ih (r - t) (tot + v) (by omega)
      omega
    · simp
      omega

/-- With a positive tier, the inner while loop exits by its guard (the final
`remaining` is strictly below the tier) whenever the fuel is at least the
initial `remaining`; the final `remaining` stays within `[0, r]`. -/
lemma tierLoop_exit (t v : Int) (ht : 0 < t) :
    ∀ (fuel : Nat) (r tot : Int), 0 ≤ r → r.toNat ≤ fuel →
      (tierLoop t v fuel (r, tot)).1 < t ∧
      0 ≤ (tierLoop t v fuel (r, tot)).1 ∧
      (tierLoop t v fuel (r, tot)).1 ≤ r := by
  intro fuel
  induction fuel with
  | zero =>
    intro r tot hr hf
    have hr0 : r = 0 := by omega
    subst hr0
    simp [tierLoop]
    omega
  | succ n ih =>
    intro r tot hr hf
    simp only [tierLoop]
    split_ifs with hc
    · have h := ih (r - t) (tot + v) (by omega) (by omega)
      omega
    · simp
      omega

/-- With a positive tier, the inner while loop's result does not depend on
the fuel once the fuel is at least the initial `remaining`. -/
lemma tierLoop_fuel_congr (t v : Int) (ht : 0 < t) :
    ∀ (f1 f2 : Nat) (r tot : Int), 0 ≤ r → r.toNat ≤ f1 → r.toNat ≤ f2 →
      tierLoop t v f1 (r, tot) = tierLoop t v f2 (r, tot) := by
  intro f1
  induction f1 with
  | zero =>
    intro f2 r tot hr h1 h2
    have hr0 : r = 0 := by omega
    subst hr0
    cases f2 with
    | zero => rfl
    | succ m =>
      simp only [tierLoop]
      rw [if_neg (by omega)]
  | succ n ih =>
    intro f2 r tot hr h1 h2
    cases f2 with
    | zero =>
      have hr0 : r = 0 := by omega
      subst hr0
      simp only [tierLoop]
      rw [if_neg (by omega)]
    | succ m =>
      simp only [tierLoop]
      split_ifs with hc
      · exact ih m (r - t) (tot + v) (by omega) (by omega) (by omega)
      · rfl

/-- The greedy pass over a list of offers preserves non-negativity of
`remaining` and, when every offer awards at least what it consumes, never
decreases `totalTizo + remaining`. -/
lemma runOffers_inv (offers : List UpsellOffer)
    (h : ∀ o ∈ offers, o.topup_rb ≤ o.tizo_value) :
    ∀ (fuel : Nat) (r tot : Int), 0 ≤ r →
      0 ≤ (runOffers fuel offers (r, tot)).1 ∧
      tot + r ≤ (runOffers fuel offers (r, tot)).2 + (runOffers fuel offers (r, tot)).1 := by
  induction offers with
  | nil => intro fuel r tot hr; simp [runOffers]; omega
  | cons o os ih =>
    intro fuel r tot hr
    simp only [runOffers]
    have h1 := tierLoop_inv o.topup_rb o.tizo_value (h o (by simp)) fuel r tot hr
    have h2 := ih (fun x hx => h x (by simp [hx])) fuel
      (tierLoop o.topup_rb o.tizo_value fuel (r, tot)).1
      (tierLoop o.topup_rb o.tizo_value fuel (r, tot)).2 h1.1
    rw [Prod.mk.eta] at h2
    omega

/-- With only positive offers, the greedy pass keeps `remaining` within
`[0, r]`. -/
lemma runOffers_bounds (offers : List UpsellOffer)
    (h : ∀ o ∈ offers, 0 < o.topup_rb) :
    ∀ (fuel : Nat) (r tot : Int), 0 ≤ r → r.toNat ≤ fuel →
      0 ≤ (runOffers fuel offers (r, tot)).1 ∧
      (runOffers fuel offers (r, tot)).1 ≤ r := by
  induction offers with
  | nil => intro fuel r tot hr _; simp [runOffers]; omega
  | cons o os ih =>
    intro fuel r tot hr hf
    simp only [runOffers]
    have h1 := tierLoop_exit o.topup_rb o.tizo_value (h o (by simp)) fuel r tot hr hf
    have h2 := ih (fun x hx => h x (by simp [hx])) fuel
      (tierLoop o.topup_rb o.tizo_value fuel (r, tot)).1
      (tierLoop o.topup_rb o.tizo_value fuel (r, tot)).2 h1.2.1 (by omega)
    rw [Prod.mk.eta] at h2
    omega

/-- With only positive offers, the greedy pass result does not depend on the
fuel once the fuel is at least the initial `remaining`. -/
lemma runOffers_fuel_congr (offers : List UpsellOffer)
    (h : ∀ o ∈ offers, 0 < o.topup_rb) :
    ∀ (f1 f2 : Nat) (r tot : Int), 0 ≤ r → r.toNat ≤ f1 → r.toNat ≤ f2 →
      runOffers f1 offers (r, tot) = runOffers f2 offers (r, tot) := by
  induction offers with
  | nil => intro f1 f2 r tot _ _ _; rfl
  | cons o os ih =>
    intro f1 f2 r tot hr h1 h2
    have ht : 0 < o.topup_rb := h o (by simp)
    have hexit := tierLoop_exit o.topup_rb o.tizo_value ht f1 r tot hr h1
    have heq := tierLoop_fuel_congr o.topup_rb o.tizo_value ht f1 f2 r tot hr h1 h2
    simp only [runOffers]
    rw [← heq]
    exact ih (fun x hx => h x (by simp [hx])) f1 f2
      (tierLoop o.topup_rb o.tizo_value f1 (r, tot)).1
      (tierLoop o.topup_rb o.tizo_value f1 (r, tot)).2
      hexit.2.1 (by omega) (by omega)

/-- The emptiness conjunct `offers.length > 0` of the step-2 guard is
redundant: when the cache list is empty the greedy pass is a no-op anyway. -/
lemma if_and_length (fuel : Nat) (offers : List UpsellOffer) (r tot : Int) :
    (if 0 < r ∧ 0 < offers.length then
        runOffers fuel (sortDescByTopup (offers.filter fun o => o.topup_rb < 600)) (r, tot)
      else (r, tot)) =
    (if 0 < r then
        runOffers fuel (sortDescByTopup (offers.filter fun o => o.topup_rb < 600)) (r, tot)
      else (r, tot)) := by
  rcases offers with _ | ⟨x, xs⟩
  · simp [sortDescByTopup, runOffers]
  · have hl : 0 < (x :: xs).length := by simp
    simp [hl]

/-! ### Claim theorems -/

/-- C1: with the cache snapshot holding the entries
`(topup_rb 550, tizo_value 1020)` and `(topup_rb 40, tizo_value 40)` (listed
ascending, as the loading query returns them), `calculateCustomTizo 1790`
returns exactly `3460`: two applications of the 600-unit base tier (2400),
one application of the 550 tier (1020), and one of the 40 tier (40). -/
theorem c1_convert_1790 :
    calculateCustomTizo (some [⟨40, 40⟩, ⟨550, 1020⟩]) 1790 = 3460 := by decide

/-- C2 counterexample: on the negative input `-1` (with the cache in its
initial `null` state), `calculateCustomTizo` does not fail: it returns the
numeric result `0`.  The function is total with result type `Int` and has no
error channel at all, refuting the claim that negative inputs are rejected
with an `InvalidAmount` error before any computation. -/
theorem c2_counterexample : calculateCustomTizo none (-1) = 0 := by decide

/-- C2 amended: for every negative input amount and every cache state,
`calculateCustomTizo` performs no validation and returns `0`: the guard
`base600Count > 0` and both `remaining > 0` guards are all false for a
negative amount, so every step is skipped; no `InvalidAmount` error exists
in the code. -/
theorem c2_amended (cache : Option (List UpsellOffer)) (a : Int) (ha : a < 0) :
    calculateCustomTizo cache a = 0 := by
  rcases cache with _ | l
  all_goals
    simp only [calculateCustomTizo, calculateCustomTizoFuel, step2Fuel]
    split_ifs <;> omega

/-- C2 amended, witness at the negative input `-5` with a one-row cache. -/
theorem c2_amended_witness :
    (-5 : Int) < 0 ∧ calculateCustomTizo (some [⟨40, 40⟩]) (-5) = 0 :=
  ⟨by decide, c2_amended (some [⟨40, 40⟩]) (-5) (by decide)⟩

/-- C3 counterexample: when the source query fails (here with message
`connection refused`) against a previous one-row cache, the previous cache
is indeed left untouched, but what the awaiting caller observes is
`Except.ok ()` — the `catch` block only logs via `console.error` and the
async function resolves normally — so no `SourceUnavailable` (nor any
other) error is signaled to the caller, refuting that conjunct of the
claim. -/
theorem c3_counterexample :
    loadUpsellOffersCache (some [⟨40, 40⟩]) (Except.error "connection refused") =
      (some [⟨40, 40⟩], Except.ok ()) := rfl

/-- C3 amended: whenever `loadUpsellOffersCache` fails, the previous cache
contents are left untouched and the failure is never fatal to the process —
the error is caught inside the function — but no error is signaled to the
caller: the call resolves normally with `Except.ok ()`, the failure being
recorded only in a log line. -/
theorem c3_amended (cache : Option (List UpsellOffer)) (e : String) :
    loadUpsellOffersCache cache (Except.error e) = (cache, Except.ok ()) := rfl

/-- C4: with the cache uninitialized (`none`, the initial `null`) or empty
(`some []`), `calculateCustomTizo` on a non-negative amount `a` returns
`a / 600 * 1200 + a % 600` — the base tier plus the whole remainder at
1:1 — without any error; the instance `a = 590` (value `590`) is the
witness below. -/
theorem c4_empty_cache (a : Int) (ha : 0 ≤ a) :
    calculateCustomTizo none a = a / 600 * 1200 + a % 600 ∧
    calculateCustomTizo (some []) a = a / 600 * 1200 + a % 600 := by
  constructor
  all_goals
    simp only [calculateCustomTizo, calculateCustomTizoFuel, step2Fuel, List.length_nil]
    split_ifs <;> omega

/-- C4 witness: at `a = 590` the empty and uninitialized caches both give
`590`. -/
theorem c4_witness :
    0 ≤ (590 : Int) ∧ calculateCustomTizo none 590 = 590 ∧
      calculateCustomTizo (some []) 590 = 590 := by
  have h := c4_empty_cache 590 (by decide)
  exact ⟨by decide, by rw [h.1]; decide, by rw [h.2]; decide⟩

/-- C5: the conversion never awards less than the input.  For every
non-negative `a`, with the cache uninitialized or empty
`a ≤ calculateCustomTizo a`; and for every cache snapshot whose entries are
bonus-only tiers (`topup_rb ≤ tizo_value`) and satisfy the data model's
positivity invariant on `topup_rb` (spec section 3; positivity is also what
makes the source's inner loop terminate), `a ≤ calculateCustomTizo a`. -/
theorem c5_convert_ge (a : Int) (ha : 0 ≤ a) :
    a ≤ calculateCustomTizo none a ∧ a ≤ calculateCustomTizo (some []) a ∧
    ∀ cache : List UpsellOffer, (∀ o ∈ cache, 0 < o.topup_rb) →
      (∀ o ∈ cache, o.topup_rb ≤ o.tizo_value) →
      a ≤ calculateCustomTizo (some cache) a := by
  refine ⟨?_, ?_, ?_⟩
  · simp only [calculateCustomTizo, calculateCustomTizoFuel, step2Fuel]
    split_ifs <;> omega
  · simp only [calculateCustomTizo, calculateCustomTizoFuel, step2Fuel, List.length_nil]
    split_ifs <;> omega
  · intro cache hpos hbonus
    simp only [calculateCustomTizo, calculateCustomTizoFuel, step2Fuel]
    set L := sortDescByTopup (cache.filter fun o => o.topup_rb < 600) with hL
    have hmem : ∀ o ∈ L, o.topup_rb ≤ o.tizo_value := by
      intro o ho
      rw [hL] at ho
      exact hbonus o (List.mem_of_mem_filter (mem_sortDescByTopup.mp ho))
    set r1 := if 0 < a / 600 then a % 600 else a with hr1
    set t1 := if 0 < a / 600 then a / 600 * 1200 else 0 with ht1
    have hb : 0 ≤ r1 ∧ a ≤ t1 + r1 := by
      rw [hr1, ht1]; split_ifs <;> omega
    have h := runOffers_inv L hmem (a.toNat + 1) r1 t1 hb.1
    split_ifs <;> omega

/-- C5 witness: at `a = 1790` with the documented two-row snapshot (whose
tiers are positive and bonus-only), and with the empty snapshots. -/
theorem c5_witness :
    0 ≤ (1790 : Int) ∧ 1790 ≤ calculateCustomTizo none 1790 ∧
      1790 ≤ calculateCustomTizo (some []) 1790 ∧
      1790 ≤ calculateCustomTizo (some [⟨40, 40⟩, ⟨550, 1020⟩]) 1790 := by
  have h := c5_convert_ge 1790 (by decide)
  exact ⟨by decide, h.1, h.2.1, h.2.2 [⟨40, 40⟩, ⟨550, 1020⟩] (by decide) (by decide)⟩

/-- C6: for every cache state, `calculateCustomTizo` maps `0` to `0`, `600`
to `1200` and `1200` to `2400`; the base-unit tier leaves a zero remainder,
so the greedy pass and the 1:1 residual are skipped and the cache contents
are irrelevant. -/
theorem c6_base_multiples (cache : Option (List UpsellOffer)) :
    calculateCustomTizo cache 0 = 0 ∧ calculateCustomTizo cache 600 = 1200 ∧
      calculateCustomTizo cache 1200 = 2400 := by
  rcases cache with _ | l
  · exact ⟨by decide, by decide, by decide⟩
  · refine ⟨?_, ?_, ?_⟩ <;> simp [calculateCustomTizo, calculateCustomTizoFuel, step2Fuel]

/-- C7: cache entries with `topup_rb ≥ 600` are never selected: for every
non-negative amount, the result on a snapshot equals the result on the
snapshot with all such entries removed (the converter filters on
`topup_rb < 600` before its greedy pass). -/
theorem c7_ignores_ge600 (cache : List UpsellOffer) (a : Int) (ha : 0 ≤ a) :
    calculateCustomTizo (some cache) a =
      calculateCustomTizo (some (cache.filter fun o => o.topup_rb < 600)) a := by
  simp only [calculateCustomTizo, calculateCustomTizoFuel, step2Fuel]
  rw [if_and_length, if_and_length, List.filter_filter]
  simp only [Bool.and_self]

/-- C7 witness: a snapshot holding a 700-unit entry gives the same result at
`a = 50` as the snapshot with that entry removed. -/
theorem c7_witness :
    0 ≤ (50 : Int) ∧
      calculateCustomTizo (some [⟨700, 1400⟩, ⟨40, 40⟩]) 50 =
        calculateCustomTizo
          (some ([⟨700, 1400⟩, ⟨40, 40⟩].filter fun o => o.topup_rb < 600)) 50 :=
  ⟨by decide, c7_ignores_ge600 [⟨700, 1400⟩, ⟨40, 40⟩] 50 (by decide)⟩

/-- C8: after a successful load, the cache holds exactly the rows returned
by the source query (`SELECT * FROM upsell_offers ORDER BY topup_rb`),
ordered ascending by `topup_rb`, and the whole previous collection is
replaced in the one assignment `upsellOffersCache = result.rows`, whatever
it previously held. -/
theorem c8_load_replaces_sorted (prev : Option (List UpsellOffer))
    (table : List UpsellOffer) :
    loadUpsellOffersCache prev (Except.ok (queryUpsellOffers table)) =
      (some (queryUpsellOffers table), Except.ok ()) ∧
    List.Pairwise (fun a b : UpsellOffer => a.topup_rb ≤ b.topup_rb)
      (queryUpsellOffers table) :=
  ⟨rfl, pairwise_queryUpsellOffers table⟩

/-- C9: the converter is deterministic.  In state-passing form a call leaves
the cache state unchanged, and a second call with the same amount on the
post-call state returns the identical result; the source function reads the
module-level cache but contains no assignment to it and performs no I/O. -/
theorem c9_deterministic (upsellOffersCache : Option (List UpsellOffer))
    (amountRb : Int) :
    (calculateCustomTizoSt upsellOffersCache amountRb).2 = upsellOffersCache ∧
    (calculateCustomTizoSt
        ((calculateCustomTizoSt upsellOffersCache amountRb).2) amountRb).1 =
      (calculateCustomTizoSt upsellOffersCache amountRb).1 :=
  ⟨rfl, rfl⟩

/-- C10: termination of the greedy pass.  With a non-negative amount and a
snapshot whose entries all have positive `topup_rb`, the fuel-indexed
embedding stabilizes: any fuel of at least `a.toNat` yields the value of
`calculateCustomTizo` — every inner while loop exits by its guard
(`tierLoop_exit`), each iteration strictly decreasing `remaining` by the
positive `topup_rb`.  An entry with `topup_rb ≤ 0` would keep the guard
`remaining >= offer.topup_rb` true forever, so the positivity hypothesis is
necessary. -/
theorem c10_terminates (cache : List UpsellOffer) (a : Int) (fuel : Nat)
    (ha : 0 ≤ a) (hpos : ∀ o ∈ cache, 0 < o.topup_rb) (hfuel : a.toNat ≤ fuel) :
    calculateCustomTizoFuel fuel (some cache) a =
      calculateCustomTizo (some cache) a := by
  have hmem : ∀ o ∈ sortDescByTopup (cache.filter fun o => o.topup_rb < 600),
      0 < o.topup_rb := by
    intro o ho
    exact hpos o (List.mem_of_mem_filter (mem_sortDescByTopup.mp ho))
  simp only [calculateCustomTizo, calculateCustomTizoFuel, step2Fuel]
  set r1 := if 0 < a / 600 then a % 600 else a with hr1
  set t1 := if 0 < a / 600 then a / 600 * 1200 else 0 with ht1
  have hb : 0 ≤ r1 ∧ r1 ≤ a := by rw [hr1]; split_ifs <;> omega
  rw [runOffers_fuel_congr _ hmem fuel (a.toNat + 1) r1 t1 hb.1 (by omega) (by omega)]

/-- C10 witness: at amount `50`, fuel `50` and the positive one-row
snapshot; the hypotheses hold and the stabilized value agrees. -/
theorem c10_witness :
    (0 ≤ (50 : Int) ∧ (∀ o ∈ [(⟨40, 40⟩ : UpsellOffer)], 0 < o.topup_rb) ∧
        (50 : Int).toNat ≤ 50) ∧
      calculateCustomTizoFuel 50 (some [⟨40, 40⟩]) 50 =
        calculateCustomTizo (some [⟨40, 40⟩]) 50 :=
  ⟨by decide, c10_terminates [⟨40, 40⟩] 50 50 (by decide) (by decide) (by decide)⟩
